import Mathlib

/-!
Verification of the periodic per-user news delivery engine of the
telegram-news-bot repository (package `scheduler`, file
`internal/bot/scheduler/scheduler.go`, with the sent-article repository of
`internal/bot/database/database.go`).

Modelling conventions:
* Time instants and durations are integers in seconds (`timeMinute = 60`,
  `timeHour = 3600`); the Go code uses `time.Duration` nanoseconds, and all
  comparisons in the code are ratio-invariant, so the scale does not matter.
* The sent-article table (`SentArticle` rows created by
  `sentArticleRepository.MarkArticleAsSent`, queried with a `count > 0` test
  by `IsArticleSent`, deleted per user by `ResetSentArticlesHistory`) is a
  list of `(userID, articleHash)` rows; `Create` appends a row, duplicates
  allowed, exactly as in the table (which has no uniqueness constraint).
* The in-process map `sentArticles map[string]map[string]bool` is an
  association list from string keys to inner sets of url keys (the code only
  ever stores `true` as a value, so an inner map is its key set; `len` of the
  inner map is the length of that list).
* Fallible repository calls are modelled by explicit failure flags passed to
  the functions that make those calls (`readFail`, `writeFail`, ...): the Go
  code branches on `err != nil` and the flag selects that branch.
-/

/-- One second of `time.Duration`, the base unit of modelled time. -/
def timeSecond : Int := 1

/-- `time.Minute`. -/
def timeMinute : Int := 60 * timeSecond

/-- `time.Hour`. -/
def timeHour : Int := 60 * timeMinute

/-- `fetcher.Article`: candidate article returned by the Article Source.
Identity is the URL. -/
structure Article where
  url : String
  title : String
  description : String
  publishedAt : Int
  sourceName : String
deriving DecidableEq, Repr

/-- `database.User`: the fields of the user record that `ProcessUser` reads.
`NotificationIntervalMinutes` and `NewsLimit` are Go `uint`, hence `Nat`. -/
structure User where
  id : Nat
  telegramID : Int
  notificationIntervalMinutes : Nat
  lastNotifiedAt : Option Int
  newsLimit : Nat
deriving DecidableEq, Repr

/-- The sent-article table: one `(UserID, ArticleHash)` row per
`sentArticleRepository.MarkArticleAsSent` call. -/
abbrev LedgerDB := List (Nat × String)

/-- `sentArticleRepository.IsArticleSent`: counts the rows matching
`user_id = ? AND article_hash = ?` and returns `count > 0`. -/
def dbIsArticleSent (db : LedgerDB) (uid : Nat) (hash : String) : Bool :=
  decide (0 < (db.filter (fun r => r.1 == uid && r.2 == hash)).length)

/-- `sentArticleRepository.MarkArticleAsSent`: `Create` inserts one new row
(no uniqueness constraint, so a duplicate pair simply adds a second row). -/
def dbMarkArticleAsSent (db : LedgerDB) (uid : Nat) (hash : String) : LedgerDB :=
  db ++ [(uid, hash)]

/-- `sentArticleRepository.ResetSentArticlesHistory`: deletes every row with
`user_id = ?`. -/
def dbResetSentArticlesHistory (db : LedgerDB) (uid : Nat) : LedgerDB :=
  db.filter (fun r => !(r.1 == uid))

/-- The in-memory degradation cache `sentArticles map[string]map[string]bool`,
as an association list from string keys to the key set of the inner map. -/
abbrev SentCache := List (String × List String)

/-- Go map read `m[k]` (comma-ok form): the first binding of `k`, if any. -/
def mapFind (m : SentCache) (k : String) : Option (List String) :=
  match m with
  | [] => none
  | (k', v) :: rest => if k' = k then some v else mapFind rest k

/-- Go map write `m[k] = v`: replace the binding of `k`, or add one. -/
def mapSet (m : SentCache) (k : String) (v : List String) : SentCache :=
  match m with
  | [] => [(k, v)]
  | (k', v') :: rest => if k' = k then (k, v) :: rest else (k', v') :: mapSet rest k v

/-- Inner-map write `m[k][url] = true`: add `url` to the key set if absent. -/
def segInsert (seg : List String) (url : String) : List String :=
  if seg.contains url then seg else url :: seg

/-- `fmt.Sprintf("%d:%s", userID, articleHash)` — the composite key used by
the fallback paths of `isArticleSent` and `markArticleAsSent`. -/
def topicKey (uid : Nat) (url : String) : String :=
  toString uid ++ ":" ++ url

/-- The whole state owned by the `Scheduler` value that the seen/mark/reset
operations touch: the sent-article table and the in-memory cache. -/
structure SchedState where
  db : LedgerDB
  cache : SentCache
deriving DecidableEq, Repr

/-- `const maxCacheSize = 100` in `markArticleAsSent`. -/
def maxCacheSize : Nat := 100

/-- The cache consultation in the `err != nil` branch of `isArticleSent`:
if the composite key is absent return `false`, otherwise look the URL up in
the inner map. -/
def fallbackLookup (cache : SentCache) (uid : Nat) (url : String) : Bool :=
  match mapFind cache (topicKey uid url) with
  | none => false
  | some seg => seg.contains url

/-- `Scheduler.isArticleSent` (lowercase, internal): ask the repository; on a
read error (`readFail`), fall back to the in-memory cache. The code sets
`articleHash := articleURL`, so hash and URL coincide throughout. -/
def isArticleSentInternal (st : SchedState) (uid : Nat) (url : String)
    (readFail : Bool) : Bool :=
  if readFail then fallbackLookup st.cache uid url
  else dbIsArticleSent st.db uid url

/-- `Scheduler.markArticleAsSent` (lowercase, internal): write to the
repository; on a write error (`writeFail`), record into the in-memory cache
under the composite key, clearing that segment first when it already holds
`maxCacheSize` or more entries. -/
def markArticleAsSentInternal (st : SchedState) (uid : Nat) (url : String)
    (writeFail : Bool) : SchedState :=
  if writeFail then
    let k := topicKey uid url
    let seg0 := (mapFind st.cache k).getD []
    let seg1 := if maxCacheSize ≤ seg0.length then [] else seg0
    { st with cache := mapSet st.cache k (segInsert seg1 url) }
  else
    { st with db := dbMarkArticleAsSent st.db uid url }

/-- `Scheduler.IsArticleSent` (public): returns
`(s.isArticleSent(ctx, userID, articleURL), nil)` — the error is always nil. -/
def IsArticleSentPub (st : SchedState) (uid : Nat) (url : String)
    (readFail : Bool) : Bool × Option String :=
  (isArticleSentInternal st uid url readFail, none)

/-- `Scheduler.MarkArticleAsSent` (public): write to the repository, failing
fast on error (`fail1`); on success additionally run the internal
`markArticleAsSent`, which writes to the repository a second time and falls
back to the cache if that second write errors (`fail2`). -/
def MarkArticleAsSentPub (st : SchedState) (uid : Nat) (url : String)
    (fail1 fail2 : Bool) : Except String SchedState :=
  if fail1 then Except.error "ledger write failed"
  else Except.ok
    (markArticleAsSentInternal
      { st with db := dbMarkArticleAsSent st.db uid url } uid url fail2)

/-- `Scheduler.ResetSentArticlesHistory`: reset the repository history, failing
fast on error; then set `s.sentArticles[fmt.Sprintf("%d", userID)]` to a fresh
empty inner map. Note the key is `"%d"`, not the composite `"%d:%s"`. -/
def ResetSentArticlesHistoryPub (st : SchedState) (uid : Nat)
    (dbFail : Bool) : Except String SchedState :=
  if dbFail then Except.error "ledger reset failed"
  else Except.ok
    { db := dbResetSentArticlesHistory st.db uid
      cache := mapSet st.cache (toString uid) [] }

/-- Whether a cache key is of the form `"<uid>:..."` — the only keys the
fallback write path of `markArticleAsSent` creates for user `uid`. -/
def keyForUser (uid : Nat) (k : String) : Bool :=
  List.isPrefixOf (toString uid ++ ":").data k.data

/-- Number of cache entries held on behalf of user `uid`: the total size of
the inner maps bound to keys of the form `"<uid>:..."`. -/
def cacheEntryCountFor (cache : SentCache) (uid : Nat) : Nat :=
  cache.foldl (fun n e => if keyForUser uid e.1 then n + e.2.length else n) 0

/-!  Scheduler lifecycle (`Start` / `Stop`).

`Scheduler.stop` is a `chan struct{}` created by `NewScheduler`; `Start`
spawns the ticker goroutine (the channel value itself is not changed) and
`Stop` executes `close(s.stop)`.  In Go, `close` on an already-closed channel
panics; `closeChan` models that semantics with an `Except`. -/

/-- The lifecycle-relevant state of a `Scheduler`: whether the `stop` channel
has been closed. `NewScheduler` starts with it open (`false`). -/
structure LifecycleState where
  stopClosed : Bool
deriving DecidableEq, Repr

/-- Go `close` on a `chan struct{}`: panics (error) when the channel is
already closed, otherwise marks it closed. -/
def closeChan (closed : Bool) : Except String Bool :=
  if closed then Except.error "close of closed channel"
  else Except.ok true

/-- `Scheduler.Start`: launches the ticker goroutine; the `stop` channel is
left untouched. -/
def startScheduler (s : LifecycleState) : LifecycleState := s

/-- `Scheduler.Stop`: `close(s.stop)`. -/
def stopScheduler (s : LifecycleState) : Except String LifecycleState :=
  match closeChan s.stopClosed with
  | Except.error e => Except.error e
  | Except.ok c => Except.ok { stopClosed := c }

/-!  `Scheduler.ProcessUser`. -/

/-- `newsFilterThreshold := time.Hour * 24 * 183` — the staleness horizon. -/
def newsFilterThreshold : Int := timeHour * 24 * 183

/-- The external collaborators one `ProcessUser` call interacts with, as
oracles fixed for the duration of the call:
* `subs` — the result of `subRepo.GetUserSubscriptions`;
* `fetch` — the result of `fetcher.FetchNews` per topic;
* `readFail` / `writeFail` — whether `sentArticleRepo.IsArticleSent` /
  `MarkArticleAsSent` errors on a given article URL;
* `sendOk` — whether `bot.Send` succeeds for a given article URL
  (a failure is logged and skipped, it changes no state);
* `updateOk` — whether `userRepo.UpdateUserLastNotifiedAt` succeeds
  (a failure is only logged). -/
structure Env where
  subs : Except String (List String)
  fetch : String → Except String (List Article)
  readFail : String → Bool
  writeFail : String → Bool
  sendOk : String → Bool
  updateOk : Bool

/-- Everything observable about one `ProcessUser` call: the returned count,
the final scheduler state, and the side effects performed — whether the
subscription registry was read, which topics were fetched, which articles
were pushed to the Delivery Sink (`bot.Send` attempted), and the timestamp
passed to `UpdateUserLastNotifiedAt` when that call was attempted. -/
structure ProcessResult where
  ret : Nat
  st : SchedState
  subsRead : Bool
  fetched : List String
  delivered : List Article
  lastNotifiedUpdate : Option Int
deriving Repr

/-- The timing gate of `ProcessUser`:
`!force && user.LastNotifiedAt != nil && now.Sub(*user.LastNotifiedAt) < interval`. -/
def dueGateBlocked (force : Bool) (last : Option Int) (now interval : Int) : Bool :=
  !force &&
    (match last with
     | none => false
     | some t => decide (now - t < interval))

/-- The per-article test of the inner fetch loop:
`now.Sub(article.PublishedAt) < newsFilterThreshold && !s.isArticleSent(...)`. -/
def articleFresh (now : Int) (st : SchedState) (uid : Nat) (readFail : Bool)
    (a : Article) : Bool :=
  decide (now - a.publishedAt < newsFilterThreshold) &&
    !(isArticleSentInternal st uid a.url readFail)

/-- The inner loop of `ProcessUser` over one topic's fetched articles: each
article passing `articleFresh` is appended to `allFreshArticles` and
immediately marked sent (write-before-send). Returns the fresh articles in
order together with the updated state. -/
def collectArticles (uid : Nat) (now : Int) (readFail writeFail : String → Bool)
    (st : SchedState) : List Article → List Article × SchedState
  | [] => ([], st)
  | a :: rest =>
    if articleFresh now st uid (readFail a.url) a then
      let p := collectArticles uid now readFail writeFail
        (markArticleAsSentInternal st uid a.url (writeFail a.url)) rest
      (a :: p.1, p.2)
    else
      collectArticles uid now readFail writeFail st rest

/-- The outer loop of `ProcessUser` over the subscribed topics: fetch each
topic; a fetch error is logged and the topic skipped; otherwise run the inner
article loop, threading the state. -/
def collectTopics (env : Env) (uid : Nat) (now : Int) (st : SchedState) :
    List String → List Article × SchedState
  | [] => ([], st)
  | t :: rest =>
    match env.fetch t with
    | Except.error _ => collectTopics env uid now st rest
    | Except.ok arts =>
      let p := collectArticles uid now env.readFail env.writeFail st arts
      let q := collectTopics env uid now p.2 rest
      (p.1 ++ q.1, q.2)

/-- The early `return 0` exits of `ProcessUser` perform no delivery and no
ledger write; `subsRead` records whether `GetUserSubscriptions` was called
before exiting. -/
def noopResult (st : SchedState) (subsRead : Bool) : ProcessResult :=
  { ret := 0
    st := st
    subsRead := subsRead
    fetched := []
    delivered := []
    lastNotifiedUpdate := none }

/-- `newsLimit := int(user.NewsLimit); if newsLimit <= 0 { newsLimit = 5 }`:
the effective cap; `NewsLimit` is a Go `uint`, so `<= 0` holds exactly when it
is zero. -/
def effNewsLimit (user : User) : Nat :=
  if user.newsLimit = 0 then 5 else user.newsLimit

/-- The body of `ProcessUser` after the gate and subscription checks: collect
fresh articles over all topics; when none are found, update the timestamp and
return 0; otherwise cap by the user's limit, attempt to send each capped
article, update the timestamp, and return the fresh count. -/
def processUserCore (env : Env) (st : SchedState) (user : User) (now : Int)
    (topics : List String) : ProcessResult :=
  let p := collectTopics env user.id now st topics
  if p.1.isEmpty then
    { ret := 0
      st := p.2
      subsRead := true
      fetched := topics
      delivered := []
      lastNotifiedUpdate := some now }
  else
    let newsLimit := effNewsLimit user
    let articlesToSend := if newsLimit < p.1.length then p.1.take newsLimit else p.1
    { ret := p.1.length
      st := p.2
      subsRead := true
      fetched := topics
      delivered := articlesToSend
      lastNotifiedUpdate := some now }

/-- `Scheduler.ProcessUser(ctx, user, force)` at instant `now`: timing gate,
subscription retrieval (an error or an empty topic list returns 0), then the
fetch/filter/mark/cap/send pipeline of `processUserCore`. -/
def ProcessUser (env : Env) (st : SchedState) (user : User) (force : Bool)
    (now : Int) : ProcessResult :=
  let interval : Int := (user.notificationIntervalMinutes : Int) * timeMinute
  if dueGateBlocked force user.lastNotifiedAt now interval then
    noopResult st false
  else
    match env.subs with
    | Except.error _ => noopResult st true
    | Except.ok topics =>
      if topics.isEmpty then noopResult st true
      else processUserCore env st user now topics

/-- The deliveries of one call that the Delivery Sink accepted (`bot.Send`
returned no error); failures are logged and skipped by the code. -/
def succeededDeliveries (env : Env) (r : ProcessResult) : List Article :=
  r.delivered.filter (fun a => env.sendOk a.url)

/-- Both ledger oracles of an environment always succeed. -/
def ledgerReliable (env : Env) : Prop :=
  env.readFail = (fun _ => false) ∧ env.writeFail = (fun _ => false)

/-!  Concrete sample data used to exercise the definitions. -/

/-- A sample article published at instant 0. -/
def wArt : Article := ⟨"https://example.com/a", "t", "d", 0, "s"⟩

/-- Eight sample articles with distinct URLs, all published at instant 0. -/
def wArts8 : List Article :=
  (List.range 8).map (fun i => ⟨"https://example.com/" ++ toString i, "t", "d", 0, "s"⟩)

/-- A reliable one-topic environment whose single fetch returns `[wArt]`. -/
def wEnv : Env :=
  { subs := Except.ok ["tech"]
    fetch := fun _ => Except.ok [wArt]
    readFail := fun _ => false
    writeFail := fun _ => false
    sendOk := fun _ => true
    updateOk := true }

/-- A reliable two-topic environment in which both topics return the same
eight articles, and every send fails. -/
def wEnv8 : Env :=
  { subs := Except.ok ["tech", "sports"]
    fetch := fun _ => Except.ok wArts8
    readFail := fun _ => false
    writeFail := fun _ => false
    sendOk := fun _ => false
    updateOk := true }

/-- A sample user with no last-delivery timestamp and the default limit. -/
def wUser : User := ⟨1, 7, 60, none, 5⟩

/-- A sample user whose stored news limit is zero. -/
def wUser0 : User := ⟨1, 7, 60, none, 0⟩

/-- A sample user last notified at instant 0, with a 60 minute interval. -/
def wUserLN : User := ⟨1, 7, 60, some 0, 5⟩

/-- 101 pairwise distinct URLs. -/
def overflowUrls : List String := (List.range 101).map (fun i => toString i)

/-- The state after 101 `markArticleAsSent` calls for user 1 that all hit the
ledger-write-failure fallback path. -/
def overflowState : SchedState :=
  overflowUrls.foldl (fun st u => markArticleAsSentInternal st 1 u true) ⟨[], []⟩

/-!  Theorems.  First, general lemmas about the ledger and the state thread of
the collection loops; then one theorem per specification claim. -/

theorem dbIsArticleSent_eq_true_iff (db : LedgerDB) (uid : Nat) (hash : String) :
    dbIsArticleSent db uid hash = true ↔ (uid, hash) ∈ db := by
  unfold dbIsArticleSent
  rw [decide_eq_true_iff]
  constructor
  · intro hp
    obtain ⟨x, hx⟩ := List.exists_mem_of_length_pos hp
    obtain ⟨hmem, hcond⟩ := List.mem_filter.mp hx
    simp only [Bool.and_eq_true, beq_iff_eq] at hcond
    obtain ⟨h1, h2⟩ := hcond
    cases x
    simp only at h1 h2
    rw [← h1, ← h2]
    exact hmem
  · intro hm
    have hf : (uid, hash) ∈ db.filter (fun r => r.1 == uid && r.2 == hash) :=
      List.mem_filter.mpr ⟨hm, by simp⟩
    exact List.length_pos_of_mem hf

theorem markInternal_db_mono (st : SchedState) (uid : Nat) (url : String)
    (wf : Bool) (x : Nat × String) (hx : x ∈ st.db) :
    x ∈ (markArticleAsSentInternal st uid url wf).db := by
  cases wf <;> simp [markArticleAsSentInternal, dbMarkArticleAsSent, hx]

theorem markInternal_db_self (st : SchedState) (uid : Nat) (url : String) :
    (uid, url) ∈ (markArticleAsSentInternal st uid url false).db := by
  simp [markArticleAsSentInternal, dbMarkArticleAsSent]

theorem not_mem_db_of_articleFresh {now : Int} {st : SchedState} {uid : Nat}
    {a : Article} (hc : articleFresh now st uid false a = true) :
    (uid, a.url) ∉ st.db := by
  intro hmem
  have hs : dbIsArticleSent st.db uid a.url = true :=
    (dbIsArticleSent_eq_true_iff _ _ _).mpr hmem
  simp [articleFresh, isArticleSentInternal, hs] at hc

theorem stale_of_articleFresh {now : Int} {st : SchedState} {uid : Nat}
    {rf : Bool} {a : Article} (hc : articleFresh now st uid rf a = true) :
    now - a.publishedAt < newsFilterThreshold := by
  simp only [articleFresh, Bool.and_eq_true, decide_eq_true_iff] at hc
  exact hc.1



theorem collectArticles_noFail_spec (uid : Nat) (now : Int) (l : List Article) :
    ∀ st : SchedState,
      (∀ x ∈ st.db,
        x ∈ (collectArticles uid now (fun _ => false) (fun _ => false) st l).2.db)
      ∧ (∀ a ∈ (collectArticles uid now (fun _ => false) (fun _ => false) st l).1,
          (uid, a.url) ∈
            (collectArticles uid now (fun _ => false) (fun _ => false) st l).2.db)
      ∧ (∀ u2, (uid, u2) ∈ st.db →
          ∀ a ∈ (collectArticles uid now (fun _ => false) (fun _ => false) st l).1,
            a.url ≠ u2)
      ∧ ((collectArticles uid now (fun _ => false) (fun _ => false) st l).1.map
          (fun a => a.url)).Nodup := by
  induction l with
  | nil => intro st; simp [collectArticles]
  | cons a rest ih =>
    intro st
    by_cases hc : articleFresh now st uid false a = true
    · have hred : collectArticles uid now (fun _ => false) (fun _ => false) st (a :: rest)
          = (a :: (collectArticles uid now (fun _ => false) (fun _ => false)
                (markArticleAsSentInternal st uid a.url false) rest).1,
              (collectArticles uid now (fun _ => false) (fun _ => false)
                (markArticleAsSentInternal st uid a.url false) rest).2) := by
        simp [collectArticles, hc]
      obtain ⟨ih1, ih2, ih3, ih4⟩ := ih (markArticleAsSentInternal st uid a.url false)
      rw [hred]
      refine ⟨?_, ?_, ?_, ?_⟩
      · intro x hx
        exact ih1 x (markInternal_db_mono st uid a.url false x hx)
      · intro b hb
        rcases List.mem_cons.mp hb with hb | hb
        · subst hb
          exact ih1 (uid, b.url) (markInternal_db_self st uid b.url)
        · exact ih2 b hb
      · intro u2 hu2 b hb
        rcases List.mem_cons.mp hb with hb | hb
        · subst hb
          intro heq
          exact not_mem_db_of_articleFresh hc (heq ▸ hu2)
        · exact ih3 u2 (markInternal_db_mono st uid a.url false _ hu2) b hb
      · rw [List.map_cons, List.nodup_cons]
        constructor
        · intro hmem
          obtain ⟨b, hb, hbe⟩ := List.mem_map.mp hmem
          exact ih3 a.url (markInternal_db_self st uid a.url) b hb hbe
        · exact ih4
    · have hred : collectArticles uid now (fun _ => false) (fun _ => false) st (a :: rest)
          = collectArticles uid now (fun _ => false) (fun _ => false) st rest := by
        simp [collectArticles, hc]
      rw [hred]
      exact ih st

theorem collectTopics_noFail_spec (env : Env) (uid : Nat) (now : Int)
    (hrf : env.readFail = fun _ => false) (hwf : env.writeFail = fun _ => false)
    (topics : List String) :
    ∀ st : SchedState,
      (∀ x ∈ st.db, x ∈ (collectTopics env uid now st topics).2.db)
      ∧ (∀ a ∈ (collectTopics env uid now st topics).1,
          (uid, a.url) ∈ (collectTopics env uid now st topics).2.db)
      ∧ (∀ u2, (uid, u2) ∈ st.db →
          ∀ a ∈ (collectTopics env uid now st topics).1, a.url ≠ u2)
      ∧ ((collectTopics env uid now st topics).1.map (fun a => a.url)).Nodup := by
  induction topics with
  | nil => intro st; simp [collectTopics]
  | cons t rest ih =>
    intro st
    cases hft : env.fetch t with
    | error e =>
      have hred : collectTopics env uid now st (t :: rest)
          = collectTopics env uid now st rest := by
        simp [collectTopics, hft]
      rw [hred]
      exact ih st
    | ok arts =>
      have hred : collectTopics env uid now st (t :: rest)
          = ((collectArticles uid now (fun _ => false) (fun _ => false) st arts).1
              ++ (collectTopics env uid now
                    (collectArticles uid now (fun _ => false) (fun _ => false) st arts).2
                    rest).1,
             (collectTopics env uid now
                (collectArticles uid now (fun _ => false) (fun _ => false) st arts).2
                rest).2) := by
        simp [collectTopics, hft, hrf, hwf]
      obtain ⟨p1, p2, p3, p4⟩ := collectArticles_noFail_spec uid now arts st
      obtain ⟨q1, q2, q3, q4⟩ :=
        ih (collectArticles uid now (fun _ => false) (fun _ => false) st arts).2
      rw [hred]
      refine ⟨?_, ?_, ?_, ?_⟩
      · intro x hx
        exact q1 x (p1 x hx)
      · intro b hb
        rcases List.mem_append.mp hb with hb | hb
        · exact q1 (uid, b.url) (p2 b hb)
        · exact q2 b hb
      · intro u2 hu2 b hb
        rcases List.mem_append.mp hb with hb | hb
        · exact p3 u2 hu2 b hb
        · exact q3 u2 (p1 _ hu2) b hb
      · rw [List.map_append]
        refine List.Nodup.append p4 q4 ?_
        intro u hu hu'
        obtain ⟨b, hb, hbe⟩ := List.mem_map.mp hu
        obtain ⟨c, hc2, hce⟩ := List.mem_map.mp hu'
        have hndb : c.url ≠ b.url := q3 b.url (p2 b hb) c hc2
        rw [hbe] at hndb
        exact hndb hce

theorem processUser_delivered_cases (env : Env) (st : SchedState) (user : User)
    (force : Bool) (now : Int) :
    (ProcessUser env st user force now).delivered = []
    ∨ ∃ topics, env.subs = Except.ok topics
        ∧ (ProcessUser env st user force now).st
            = (collectTopics env user.id now st topics).2
        ∧ (ProcessUser env st user force now).delivered.Sublist
            (collectTopics env user.id now st topics).1 := by
  unfold ProcessUser
  by_cases hg : dueGateBlocked force user.lastNotifiedAt now
      ((user.notificationIntervalMinutes : Int) * timeMinute) = true
  · left; simp [hg, noopResult]
  · rw [if_neg hg]
    cases hs : env.subs with
    | error e => left; simp [noopResult]
    | ok topics =>
      dsimp only
      by_cases ht : topics.isEmpty = true
      · left; simp [ht, noopResult]
      · rw [if_neg ht]
        right
        refine ⟨topics, rfl, ?_⟩
        unfold processUserCore
        by_cases hf : (collectTopics env user.id now st topics).1.isEmpty = true
        · simp [hf]
        · rw [if_neg hf]
          refine ⟨rfl, ?_⟩
          by_cases hl : effNewsLimit user < (collectTopics env user.id now st topics).1.length
          · simp only [if_pos hl]
            exact List.take_sublist _ _
          · simp only [if_neg hl]
            exact List.Sublist.refl _

theorem processUser_skips_seen (env : Env) (st : SchedState) (user : User)
    (force : Bool) (now : Int) (hrel : ledgerReliable env) (url : String)
    (hmem : (user.id, url) ∈ st.db) :
    ∀ b ∈ (ProcessUser env st user force now).delivered, b.url ≠ url := by
  intro b hb
  rcases processUser_delivered_cases env st user force now with hemp | ⟨topics, _, _, hsub⟩
  · rw [hemp] at hb
    exact absurd hb (List.not_mem_nil b)
  · obtain ⟨_, _, h3, _⟩ :=
      collectTopics_noFail_spec env user.id now hrel.1 hrel.2 topics st
    exact h3 url hmem b (hsub.subset hb)

theorem collectArticles_stale (uid : Nat) (now : Int) (rf wf : String → Bool)
    (l : List Article) :
    ∀ st : SchedState, ∀ a ∈ (collectArticles uid now rf wf st l).1,
      now - a.publishedAt < newsFilterThreshold := by
  induction l with
  | nil => intro st a ha; simp [collectArticles] at ha
  | cons x rest ih =>
    intro st a ha
    by_cases hc : articleFresh now st uid (rf x.url) x = true
    · rw [show collectArticles uid now rf wf st (x :: rest)
          = (x :: (collectArticles uid now rf wf
                (markArticleAsSentInternal st uid x.url (wf x.url)) rest).1,
             (collectArticles uid now rf wf
                (markArticleAsSentInternal st uid x.url (wf x.url)) rest).2)
        from by simp [collectArticles, hc]] at ha
      rcases List.mem_cons.mp ha with ha | ha
      · subst ha
        exact stale_of_articleFresh hc
      · exact ih (markArticleAsSentInternal st uid x.url (wf x.url)) a ha
    · rw [show collectArticles uid now rf wf st (x :: rest)
          = collectArticles uid now rf wf st rest
        from by simp [collectArticles, hc]] at ha
      exact ih st a ha

theorem collectTopics_stale (env : Env) (uid : Nat) (now : Int)
    (topics : List String) :
    ∀ st : SchedState, ∀ a ∈ (collectTopics env uid now st topics).1,
      now - a.publishedAt < newsFilterThreshold := by
  induction topics with
  | nil => intro st a ha; simp [collectTopics] at ha
  | cons t rest ih =>
    intro st a ha
    cases hft : env.fetch t with
    | error e =>
      rw [show collectTopics env uid now st (t :: rest)
          = collectTopics env uid now st rest from by simp [collectTopics, hft]] at ha
      exact ih st a ha
    | ok arts =>
      rw [show collectTopics env uid now st (t :: rest)
          = ((collectArticles uid now env.readFail env.writeFail st arts).1
              ++ (collectTopics env uid now
                    (collectArticles uid now env.readFail env.writeFail st arts).2
                    rest).1,
             (collectTopics env uid now
                (collectArticles uid now env.readFail env.writeFail st arts).2
                rest).2)
        from by simp [collectTopics, hft]] at ha
      rcases List.mem_append.mp ha with ha | ha
      · exact collectArticles_stale uid now env.readFail env.writeFail arts st a ha
      · exact ih _ a ha

/-- C2: the claim fails on the code. After `Start()`, a first `Stop()` closes
the stop channel and returns; a second `Stop()` executes `close` on the
already-closed channel, which panics in Go (modelled as the error value
below). The first conjunct shows the first stop succeeding, the second shows
the second stop hitting the panic. -/
theorem stopScheduler_second_call_panics :
    stopScheduler (startScheduler ⟨false⟩) = Except.ok ⟨true⟩
    ∧ stopScheduler ⟨true⟩ = Except.error "close of closed channel" :=
  ⟨rfl, rfl⟩

/-- C6: the claim fails on the code. `markArticleAsSent` hitting a ledger
write failure records the article for user 1 under cache key `"1:a"`;
`ResetSentArticlesHistory(1)` clears only the key `"1"`, so the fallback
entry survives and a subsequent seen-check on the ledger-failure fallback
path still reports the article as seen. -/
theorem resetHistory_leaves_fallback_cache_entry :
    ResetSentArticlesHistoryPub (markArticleAsSentInternal ⟨[], []⟩ 1 "a" true) 1 false
      = Except.ok ⟨[], [("1:a", ["a"]), ("1", [])]⟩
    ∧ isArticleSentInternal ⟨[], [("1:a", ["a"]), ("1", [])]⟩ 1 "a" true = true :=
  ⟨rfl, rfl⟩

set_option maxRecDepth 100000 in
/-- C7: the claim fails on the code. The `maxCacheSize = 100` bound is
applied per composite key `"<uid>:<url>"`, a key that already contains the
article URL, so each bounded segment only ever holds one entry and the total
held on behalf of one user is unbounded: 101 ledger-write-failure marks for
user 1 on distinct URLs leave 101 cache entries for that user. -/
theorem fallback_cache_exceeds_per_user_bound :
    maxCacheSize < cacheEntryCountFor overflowState.cache 1
    ∧ cacheEntryCountFor overflowState.cache 1 = 101 := by
  constructor <;> decide

/-- C10: the public seen-check `IsArticleSent` always returns a nil error; on
a ledger read failure the boolean is answered by the in-memory fallback
cache, and when that cache has no entry for the pair the answer is
`false` (not seen). -/
theorem isArticleSentPub_error_free (st : SchedState) (uid : Nat)
    (url : String) (rf : Bool) :
    (IsArticleSentPub st uid url rf).2 = none
    ∧ (IsArticleSentPub st uid url rf).1 = isArticleSentInternal st uid url rf
    ∧ (rf = true → (IsArticleSentPub st uid url rf).1 = fallbackLookup st.cache uid url)
    ∧ (rf = true → mapFind st.cache (topicKey uid url) = none →
        (IsArticleSentPub st uid url rf).1 = false) := by
  refine ⟨rfl, rfl, ?_, ?_⟩
  · intro h
    subst h
    simp [IsArticleSentPub, isArticleSentInternal]
  · intro h hf
    subst h
    simp [IsArticleSentPub, isArticleSentInternal, fallbackLookup, hf]

/-- Witness for C10 at an empty state: the error is nil and the fallback
answer with no cache entry is not-seen. -/
theorem isArticleSentPub_error_free_witness :
    (IsArticleSentPub ⟨[], []⟩ 1 "a" true).1 = false
    ∧ (IsArticleSentPub ⟨[], []⟩ 1 "a" true).2 = none :=
  ⟨(isArticleSentPub_error_free ⟨[], []⟩ 1 "a" true).2.2.2 rfl rfl,
   (isArticleSentPub_error_free ⟨[], []⟩ 1 "a" true).1⟩

theorem processUser_delivered_take (env : Env) (st : SchedState) (user : User)
    (force : Bool) (now : Int) (topics : List String)
    (hgate : dueGateBlocked force user.lastNotifiedAt now
        ((user.notificationIntervalMinutes : Int) * timeMinute) = false)
    (hsubs : env.subs = Except.ok topics) :
    (ProcessUser env st user force now).delivered
      = (collectTopics env user.id now st topics).1.take (effNewsLimit user) := by
  by_cases ht : topics.isEmpty = true
  · have htn : topics = [] := by
      cases topics with
      | nil => rfl
      | cons a l => simp [List.isEmpty] at ht
    subst htn
    have hred : ProcessUser env st user force now = noopResult st true := by
      unfold ProcessUser
      rw [if_neg (by simp [hgate]), hsubs]
      rfl
    rw [hred]
    simp [noopResult, collectTopics]
  · have hred : ProcessUser env st user force now
        = processUserCore env st user now topics := by
      unfold ProcessUser
      rw [if_neg (by simp [hgate]), hsubs]
      dsimp only
      rw [if_neg ht]
    rw [hred]
    unfold processUserCore
    by_cases hf : (collectTopics env user.id now st topics).1.isEmpty = true
    · have hfn : (collectTopics env user.id now st topics).1 = [] := by
        rcases hl : (collectTopics env user.id now st topics).1 with _ | ⟨a, l⟩
        · rfl
        · rw [hl] at hf; simp [List.isEmpty] at hf
      rw [if_pos hf]
      simp [hfn]
    · rw [if_neg hf]
      dsimp only
      by_cases hl : effNewsLimit user < (collectTopics env user.id now st topics).1.length
      · rw [if_pos hl]
      · rw [if_neg hl]
        rw [List.take_of_length_le (Nat.not_lt.mp hl)]

theorem processUser_ret_len (env : Env) (st : SchedState) (user : User)
    (force : Bool) (now : Int) (topics : List String)
    (hgate : dueGateBlocked force user.lastNotifiedAt now
        ((user.notificationIntervalMinutes : Int) * timeMinute) = false)
    (hsubs : env.subs = Except.ok topics) :
    (ProcessUser env st user force now).ret
      = (collectTopics env user.id now st topics).1.length := by
  by_cases ht : topics.isEmpty = true
  · have htn : topics = [] := by
      cases topics with
      | nil => rfl
      | cons a l => simp [List.isEmpty] at ht
    subst htn
    have hred : ProcessUser env st user force now = noopResult st true := by
      unfold ProcessUser
      rw [if_neg (by simp [hgate]), hsubs]
      rfl
    rw [hred]
    simp [noopResult, collectTopics]
  · have hred : ProcessUser env st user force now
        = processUserCore env st user now topics := by
      unfold ProcessUser
      rw [if_neg (by simp [hgate]), hsubs]
      dsimp only
      rw [if_neg ht]
    rw [hred]
    unfold processUserCore
    by_cases hf : (collectTopics env user.id now st topics).1.isEmpty = true
    · have hfn : (collectTopics env user.id now st topics).1 = [] := by
        rcases hl : (collectTopics env user.id now st topics).1 with _ | ⟨a, l⟩
        · rfl
        · rw [hl] at hf; simp [List.isEmpty] at hf
      rw [if_pos hf]
      simp [hfn]
    · rw [if_neg hf]

/-- C1: assuming the Seen-Article Ledger operations succeed, `ProcessUser`
delivers each article URL to a user at most once: within one pass the URLs
pushed to the Delivery Sink are pairwise distinct (so an article reachable
via two subscribed topics goes out at most once), and no URL delivered by one
call is delivered again by a subsequent sequential call (forced or
scheduled) starting from the resulting state. -/
theorem processUser_delivers_at_most_once (env1 env2 : Env) (st : SchedState)
    (user : User) (f1 f2 : Bool) (n1 n2 : Int)
    (h1 : ledgerReliable env1) (h2 : ledgerReliable env2) :
    ((ProcessUser env1 st user f1 n1).delivered.map (fun a => a.url)).Nodup
    ∧ ∀ a ∈ (ProcessUser env1 st user f1 n1).delivered,
        ∀ b ∈ (ProcessUser env2 (ProcessUser env1 st user f1 n1).st
                 user f2 n2).delivered,
          b.url ≠ a.url := by
  constructor
  · rcases processUser_delivered_cases env1 st user f1 n1 with
      hemp | ⟨topics, hsubs, hst, hsub⟩
    · simp [hemp]
    · obtain ⟨_, _, _, h4⟩ :=
        collectTopics_noFail_spec env1 user.id n1 h1.1 h1.2 topics st
      exact List.Nodup.sublist (hsub.map _) h4
  · intro a ha b hb
    rcases processUser_delivered_cases env1 st user f1 n1 with
      hemp | ⟨topics, hsubs, hst, hsub⟩
    · rw [hemp] at ha
      exact absurd ha (List.not_mem_nil a)
    · obtain ⟨_, hspec2, _, _⟩ :=
        collectTopics_noFail_spec env1 user.id n1 h1.1 h1.2 topics st
      have hmem : (user.id, a.url) ∈ (ProcessUser env1 st user f1 n1).st.db := by
        rw [hst]
        exact hspec2 a (hsub.subset ha)
      exact processUser_skips_seen env2 _ user f2 n2 h2 a.url hmem b hb

/-- Witness for C1: a scheduled pass followed by a forced pass over a
reliable one-article environment. -/
theorem processUser_delivers_at_most_once_witness :
    ledgerReliable wEnv
    ∧ (((ProcessUser wEnv ⟨[], []⟩ wUser false 0).delivered.map
          (fun a => a.url)).Nodup
      ∧ ∀ a ∈ (ProcessUser wEnv ⟨[], []⟩ wUser false 0).delivered,
          ∀ b ∈ (ProcessUser wEnv (ProcessUser wEnv ⟨[], []⟩ wUser false 0).st
                   wUser true 0).delivered,
            b.url ≠ a.url) :=
  ⟨⟨rfl, rfl⟩,
   processUser_delivers_at_most_once wEnv wEnv ⟨[], []⟩ wUser false true 0 0
     ⟨rfl, rfl⟩ ⟨rfl, rfl⟩⟩

/-- C3: when not forced, with a non-null last-delivery timestamp and
`now − lastDelivery < interval`, `ProcessUser` returns 0 with no side effects
(state unchanged, no subscription read, no fetch, no delivery, no timestamp
update); with `force = true` the gate is bypassed — the outcome does not
depend on the last-delivery timestamp at all. -/
theorem processUser_timing_gate (env : Env) (st : SchedState) (user : User)
    (now t : Int) (hlast : user.lastNotifiedAt = some t)
    (hlt : now - t < (user.notificationIntervalMinutes : Int) * timeMinute) :
    ProcessUser env st user false now
      = { ret := 0, st := st, subsRead := false, fetched := [],
          delivered := [], lastNotifiedUpdate := none }
    ∧ ∀ x y : Option Int,
        ProcessUser env st { user with lastNotifiedAt := x } true now
          = ProcessUser env st { user with lastNotifiedAt := y } true now := by
  constructor
  · have hg : dueGateBlocked false user.lastNotifiedAt now
        ((user.notificationIntervalMinutes : Int) * timeMinute) = true := by
      simp [dueGateBlocked, hlast, hlt]
    simp [ProcessUser, hg, noopResult]
  · intro x y
    rfl

/-- Witness for C3: a user last notified at instant 0 with a 60-minute
interval, processed at instant 0. -/
theorem processUser_timing_gate_witness :
    wUserLN.lastNotifiedAt = some 0
    ∧ (0 : Int) - 0 < (wUserLN.notificationIntervalMinutes : Int) * timeMinute
    ∧ (ProcessUser wEnv ⟨[], []⟩ wUserLN false 0
        = { ret := 0, st := ⟨[], []⟩, subsRead := false, fetched := [],
            delivered := [], lastNotifiedUpdate := none }
      ∧ ∀ x y : Option Int,
          ProcessUser wEnv ⟨[], []⟩ { wUserLN with lastNotifiedAt := x } true 0
            = ProcessUser wEnv ⟨[], []⟩ { wUserLN with lastNotifiedAt := y } true 0) :=
  ⟨rfl, by decide, processUser_timing_gate wEnv ⟨[], []⟩ wUserLN 0 0 rfl (by decide)⟩

/-- C4: once the timing gate is passed and the subscriptions are read, the
articles pushed to the Delivery Sink are exactly the first `effNewsLimit`
fresh articles in source-returned order (`effNewsLimit` is the stored limit,
or the default 5 when the stored limit is zero), so the number delivered is
the minimum of the limit and the fresh count. -/
theorem processUser_cap_enforcement (env : Env) (st : SchedState) (user : User)
    (force : Bool) (now : Int) (topics : List String)
    (hgate : dueGateBlocked force user.lastNotifiedAt now
        ((user.notificationIntervalMinutes : Int) * timeMinute) = false)
    (hsubs : env.subs = Except.ok topics) :
    (ProcessUser env st user force now).delivered
      = (collectTopics env user.id now st topics).1.take (effNewsLimit user)
    ∧ (ProcessUser env st user force now).delivered.length
      = min (effNewsLimit user) (collectTopics env user.id now st topics).1.length := by
  have hd := processUser_delivered_take env st user force now topics hgate hsubs
  refine ⟨hd, ?_⟩
  rw [hd]
  exact List.length_take _ _

/-- Witness for C4: eight fresh articles, stored limit 0 — exactly the
default 5 are delivered. -/
theorem processUser_cap_enforcement_witness :
    dueGateBlocked false wUser0.lastNotifiedAt 0
        ((wUser0.notificationIntervalMinutes : Int) * timeMinute) = false
    ∧ wEnv8.subs = Except.ok ["tech", "sports"]
    ∧ ((ProcessUser wEnv8 ⟨[], []⟩ wUser0 false 0).delivered
        = (collectTopics wEnv8 wUser0.id 0 ⟨[], []⟩ ["tech", "sports"]).1.take
            (effNewsLimit wUser0)
      ∧ (ProcessUser wEnv8 ⟨[], []⟩ wUser0 false 0).delivered.length
        = min (effNewsLimit wUser0)
            (collectTopics wEnv8 wUser0.id 0 ⟨[], []⟩ ["tech", "sports"]).1.length)
    ∧ (collectTopics wEnv8 wUser0.id 0 ⟨[], []⟩ ["tech", "sports"]).1.length = 8
    ∧ (ProcessUser wEnv8 ⟨[], []⟩ wUser0 false 0).delivered.length = 5 :=
  ⟨rfl, rfl,
   processUser_cap_enforcement wEnv8 ⟨[], []⟩ wUser0 false 0 ["tech", "sports"]
     rfl rfl,
   by decide, by decide⟩

/-- C5: once the timing gate is passed and the subscriptions are read, the
return value of `ProcessUser` is the number of articles identified as fresh
during the pass; the number of Delivery Sink pushes is at most that count,
and the number of successful deliveries is at most the number of pushes, so
the return value can exceed both. -/
theorem processUser_returns_fresh_count (env : Env) (st : SchedState)
    (user : User) (force : Bool) (now : Int) (topics : List String)
    (hgate : dueGateBlocked force user.lastNotifiedAt now
        ((user.notificationIntervalMinutes : Int) * timeMinute) = false)
    (hsubs : env.subs = Except.ok topics) :
    (ProcessUser env st user force now).ret
      = (collectTopics env user.id now st topics).1.length
    ∧ (ProcessUser env st user force now).delivered.length
      ≤ (ProcessUser env st user force now).ret
    ∧ (succeededDeliveries env (ProcessUser env st user force now)).length
      ≤ (ProcessUser env st user force now).delivered.length := by
  have hr := processUser_ret_len env st user force now topics hgate hsubs
  refine ⟨hr, ?_, List.length_filter_le _ _⟩
  rw [hr, processUser_delivered_take env st user force now topics hgate hsubs,
    List.length_take]
  exact Nat.min_le_right _ _

/-- Witness for C5: eight fresh articles, limit 0, every send failing — the
call returns 8 while only 5 pushes were attempted and 0 succeeded. -/
theorem processUser_returns_fresh_count_witness :
    dueGateBlocked false wUser0.lastNotifiedAt 0
        ((wUser0.notificationIntervalMinutes : Int) * timeMinute) = false
    ∧ wEnv8.subs = Except.ok ["tech", "sports"]
    ∧ ((ProcessUser wEnv8 ⟨[], []⟩ wUser0 false 0).ret
        = (collectTopics wEnv8 wUser0.id 0 ⟨[], []⟩ ["tech", "sports"]).1.length
      ∧ (ProcessUser wEnv8 ⟨[], []⟩ wUser0 false 0).delivered.length
        ≤ (ProcessUser wEnv8 ⟨[], []⟩ wUser0 false 0).ret
      ∧ (succeededDeliveries wEnv8 (ProcessUser wEnv8 ⟨[], []⟩ wUser0 false 0)).length
        ≤ (ProcessUser wEnv8 ⟨[], []⟩ wUser0 false 0).delivered.length)
    ∧ (ProcessUser wEnv8 ⟨[], []⟩ wUser0 false 0).ret = 8
    ∧ (ProcessUser wEnv8 ⟨[], []⟩ wUser0 false 0).delivered.length = 5
    ∧ (succeededDeliveries wEnv8 (ProcessUser wEnv8 ⟨[], []⟩ wUser0 false 0)).length = 0 :=
  ⟨rfl, rfl,
   processUser_returns_fresh_count wEnv8 ⟨[], []⟩ wUser0 false 0
     ["tech", "sports"] rfl rfl,
   by decide, by decide, by decide⟩

/-- C8: after the public `MarkArticleAsSent` succeeds (its leading repository
write worked; the duplicate internal write may succeed or fail), the
seen-check reports the pair as sent; a second `MarkArticleAsSent` for the
same pair also succeeds, the seen-check still reports sent, and the per-pass
freshness filter rejects any article with that URL. At the repository level
a duplicate insert merely appends a row, leaving `IsArticleSent` true. -/
theorem markArticleAsSent_idempotent_seen (st : SchedState) (uid : Nat)
    (url : String) (f2 f2' : Bool) :
    ∃ st1 st2,
      MarkArticleAsSentPub st uid url false f2 = Except.ok st1
      ∧ isArticleSentInternal st1 uid url false = true
      ∧ MarkArticleAsSentPub st1 uid url false f2' = Except.ok st2
      ∧ isArticleSentInternal st2 uid url false = true
      ∧ (∀ (a : Article) (now : Int), a.url = url →
          articleFresh now st2 uid false a = false)
      ∧ dbIsArticleSent (dbMarkArticleAsSent st.db uid url) uid url = true := by
  have hmem1 : (uid, url) ∈ (markArticleAsSentInternal
      { st with db := dbMarkArticleAsSent st.db uid url } uid url f2).db := by
    apply markInternal_db_mono
    simp [dbMarkArticleAsSent]
  refine ⟨_, _, rfl, ?_, rfl, ?_, ?_, ?_⟩
  · exact (dbIsArticleSent_eq_true_iff _ _ _).mpr hmem1
  · apply (dbIsArticleSent_eq_true_iff _ _ _).mpr
    apply markInternal_db_mono
    simp [dbMarkArticleAsSent, hmem1]
  · intro a now ha
    have hsent2 : isArticleSentInternal (markArticleAsSentInternal
        { markArticleAsSentInternal
            { st with db := dbMarkArticleAsSent st.db uid url } uid url f2
          with db := dbMarkArticleAsSent (markArticleAsSentInternal
            { st with db := dbMarkArticleAsSent st.db uid url } uid url f2).db uid url }
        uid url f2') uid a.url false = true := by
      rw [ha]
      apply (dbIsArticleSent_eq_true_iff _ _ _).mpr
      apply markInternal_db_mono
      simp [dbMarkArticleAsSent, hmem1]
    simp [articleFresh, hsent2]
  · apply (dbIsArticleSent_eq_true_iff _ _ _).mpr
    simp [dbMarkArticleAsSent]

/-- Witness for C8 at an empty state, with the duplicate internal write of
the second call failing. -/
theorem markArticleAsSent_idempotent_seen_witness :
    ∃ st1 st2,
      MarkArticleAsSentPub ⟨[], []⟩ 1 "a" false false = Except.ok st1
      ∧ isArticleSentInternal st1 1 "a" false = true
      ∧ MarkArticleAsSentPub st1 1 "a" false true = Except.ok st2
      ∧ isArticleSentInternal st2 1 "a" false = true
      ∧ (∀ (a : Article) (now : Int), a.url = "a" →
          articleFresh now st2 1 false a = false)
      ∧ dbIsArticleSent (dbMarkArticleAsSent [] 1 "a") 1 "a" = true :=
  markArticleAsSent_idempotent_seen ⟨[], []⟩ 1 "a" false true

/-- C9: every article pushed to the Delivery Sink by `ProcessUser` has a
publish timestamp strictly within the 183-day staleness horizon of `now`
(older articles are never delivered), and an article within the horizon that
is not recorded as seen passes the per-article filter, i.e. stays eligible. -/
theorem processUser_staleness_filter (env : Env) (st : SchedState)
    (user : User) (force : Bool) (now : Int) :
    (∀ b ∈ (ProcessUser env st user force now).delivered,
        now - b.publishedAt < newsFilterThreshold)
    ∧ (∀ (a : Article) (st2 : SchedState) (rf : Bool),
        now - a.publishedAt < newsFilterThreshold →
        isArticleSentInternal st2 user.id a.url rf = false →
        articleFresh now st2 user.id rf a = true) := by
  constructor
  · intro b hb
    rcases processUser_delivered_cases env st user force now with
      hemp | ⟨topics, _, _, hsub⟩
    · rw [hemp] at hb
      exact absurd hb (List.not_mem_nil b)
    · exact collectTopics_stale env user.id now topics st b (hsub.subset hb)
  · intro a st2 rf hfreshTime hunseen
    simp [articleFresh, hfreshTime, hunseen]

/-- Witness for C9: the delivered sample article is 0 old at instant 0,
within the horizon, and a 10-day-old unseen article passes the filter. -/
theorem processUser_staleness_filter_witness :
    wArt ∈ (ProcessUser wEnv ⟨[], []⟩ wUser false 0).delivered
    ∧ (0 : Int) - wArt.publishedAt < newsFilterThreshold :=
  ⟨by decide,
   (processUser_staleness_filter wEnv ⟨[], []⟩ wUser false 0).1 wArt (by decide)⟩
